import Mathlib

/-!
Verification development for the German Power Market Monitor Dashboard
(`[24W]CS_plotly_Dash.ipynb`).

The development shallowly embeds the data pipeline of the notebook:
`load_generation_data`, `load_price_data`, the date filtering performed by
`update_generation_graph` / `update_price_graph`, and the summary statistics
those callbacks compute (`sum` for generation; `mean`, `max`, `min` for
prices).  Numeric cell values are modelled as rationals (`ℚ`): every numeric
literal appearing in the two CSV exports and in the properties below is
exactly representable, so double-precision rounding plays no role in any of
the statements.  Pandas' NaN result on empty aggregations is modelled as
`Option.none`.
-/

namespace Dash

/-- Digit list to natural number, most significant first. -/
def digitsToNat (cs : List Char) : Nat :=
  cs.foldl (fun n c => 10 * n + (c.toNat - 48)) 0

/-- Unsigned part of Python's `float()` grammar, restricted to the forms
that occur in the SMARD exports: `digits`, `digits.digits`, `digits.`,
`.digits` (no exponent, no `inf`/`nan`, no underscores or padding). -/
def parseUnsigned (cs : List Char) : Option ℚ :=
  match cs.dropWhile Char.isDigit with
  | [] =>
    if (cs.takeWhile Char.isDigit).isEmpty then none
    else some (mkRat (digitsToNat (cs.takeWhile Char.isDigit)) 1)
  | '.' :: frac =>
    if frac.all Char.isDigit ∧ ¬((cs.takeWhile Char.isDigit).isEmpty ∧ frac.isEmpty) then
      some (mkRat (digitsToNat (cs.takeWhile Char.isDigit) * 10 ^ frac.length +
        digitsToNat frac) (10 ^ frac.length))
    else none
  | _ => none

/-- Python `float(s)` restricted as in `parseUnsigned`; `none` models the
`ValueError` raised on text that is not a valid real number.  The same
acceptance test models pandas' numeric type inference in `read_csv`. -/
def parsePyFloat (s : String) : Option ℚ :=
  match s.toList with
  | '-' :: cs => (parseUnsigned cs).map (fun q => -q)
  | '+' :: cs => parseUnsigned cs
  | cs => parseUnsigned cs

/-- Everything before the first occurrence of the two-character pattern
`" ["`; the whole list when the pattern does not occur.  This is Python's
`s.split(' [')[0]`. -/
def beforeFirst : List Char → List Char
  | [] => []
  | [c] => [c]
  | c1 :: c2 :: rest =>
    if c1 = ' ' ∧ c2 = '[' then []
    else c1 :: beforeFirst (c2 :: rest)

/-- Header cleanup of `load_generation_data`:
`col.split(' [')[0] if '[' in col else col`. -/
def cleanColGen (col : String) : String :=
  if '[' ∈ col.toList then String.mk (beforeFirst col.toList) else col

/-- Header cleanup of `load_price_data`:
`col.split(' [')[0] if '[' in col else col`. -/
def cleanColPrice (col : String) : String :=
  if '[' ∈ col.toList then String.mk (beforeFirst col.toList) else col

/-- The cleanup rule as the specification words it: for a header containing
`[`, the text before the first `[`, right-trimmed of whitespace; otherwise
the header unchanged.  Stated only to be compared with `cleanColGen` /
`cleanColPrice`. -/
def specCleanCol (col : String) : String :=
  if '[' ∈ col.toList then
    String.mk (((col.toList.takeWhile (fun c => c ≠ '[')).reverse.dropWhile
      Char.isWhitespace).reverse)
  else col

/-- `Series.replace('-', '0')` at the level of one cell's text: cells whose
entire value equals `-` become the text `0`. -/
def dashSub (s : String) : String :=
  if s = "-" then "0" else s

/-- `str.replace(',', '')` — remove every comma. -/
def stripCommas (s : String) : String :=
  String.mk (s.toList.filter (fun c => c ≠ ','))

/-- `str.replace(',', '.')` — turn every comma into a decimal point. -/
def commaToDot (s : String) : String :=
  String.mk (s.toList.map (fun c => if c = ',' then '.' else c))

/-- Text of a generation cell after the substitutions of
`load_generation_data` (`-` → `0`, then commas removed). -/
def genNormalizedText (s : String) : String :=
  stripCommas (dashSub s)

/-- Per-cell numeric normalization of `load_generation_data`. -/
def normalizeGenField (s : String) : Option ℚ :=
  parsePyFloat (genNormalizedText s)

/-- Per-cell numeric normalization of the textual branch of
`load_price_data` (`-` → `0`, comma → `.`, then `float`). -/
def normalizePriceField (s : String) : Option ℚ :=
  parsePyFloat (commaToDot (dashSub s))

/-- A pandas cell after `read_csv`: either an inferred numeric value or the
raw text of the field. -/
inductive Cell where
  | num (q : ℚ)
  | text (s : String)
deriving DecidableEq

/-- Load failures.  `parseError` models the `ValueError` of a failed
`astype(float)`; `attrError` models the `AttributeError` raised by the
`.str` accessor on a column that is not of string dtype. -/
inductive LoadErr where
  | parseError
  | attrError
deriving DecidableEq

instance instDecEqExcept {ε α : Type} [DecidableEq ε] [DecidableEq α] :
    DecidableEq (Except ε α) := fun a b =>
  match a, b with
  | Except.error e1, Except.error e2 =>
    if h : e1 = e2 then isTrue (by rw [h]) else isFalse (fun he => h (by cases he; rfl))
  | Except.error _, Except.ok _ => isFalse (fun he => Except.noConfusion he)
  | Except.ok _, Except.error _ => isFalse (fun he => Except.noConfusion he)
  | Except.ok x, Except.ok y =>
    if h : x = y then isTrue (by rw [h]) else isFalse (fun he => h (by cases he; rfl))

/-- Short-circuiting map over `Option`, the shape of a per-cell pandas
column operation that can fail. -/
def mapOpt {α β : Type} (f : α → Option β) : List α → Option (List β)
  | [] => some []
  | a :: l =>
    match f a with
    | none => none
    | some b =>
      match mapOpt f l with
      | none => none
      | some bs => some (b :: bs)

/-- Short-circuiting map over `Except`, the shape of a per-column loader
step: the first failing element aborts the load. -/
def mapExc {α β ε : Type} (f : α → Except ε β) : List α → Except ε (List β)
  | [] => Except.ok []
  | a :: l =>
    match f a with
    | Except.error e => Except.error e
    | Except.ok b =>
      match mapExc f l with
      | Except.error e => Except.error e
      | Except.ok bs => Except.ok (b :: bs)

/-- `read_csv` column type inference: a column all of whose fields parse as
numbers becomes a numeric column; otherwise every field stays text. -/
def inferCol (cells : List String) : List Cell :=
  match mapOpt parsePyFloat cells with
  | some qs => qs.map Cell.num
  | none => cells.map Cell.text

/-- `Series.replace('-', '0')` on one cell: text cells equal to `-` become
the text `0`; numeric cells are untouched. -/
def dashSubCell (c : Cell) : Cell :=
  match c with
  | Cell.text s => Cell.text (dashSub s)
  | Cell.num q => Cell.num q

/-- One cell of `df[col].str.replace(',', '').astype(float)` in
`load_generation_data`: on text, strip commas and convert (`ValueError`
on failure); on an already-numeric cell the `.str` accessor fails. -/
def genConvCell (c : Cell) : Except LoadErr ℚ :=
  match c with
  | Cell.text s =>
    match parsePyFloat (stripCommas s) with
    | some q => Except.ok q
    | none => Except.error LoadErr.parseError
  | Cell.num _ => Except.error LoadErr.attrError

/-- The whole per-column numeric pass of `load_generation_data`:
`replace('-', '0')` then `.str.replace(',', '').astype(float)`. -/
def loadGenColCells (cells : List String) : Except LoadErr (List Cell) :=
  match mapExc genConvCell ((inferCol cells).map dashSubCell) with
  | Except.ok qs => Except.ok (qs.map Cell.num)
  | Except.error e => Except.error e

/-- One cell of `df[col].str.replace(',', '.').astype(float)` in
`load_price_data`'s textual branch. -/
def priceConvCell (c : Cell) : Except LoadErr Cell :=
  match c with
  | Cell.text s =>
    match parsePyFloat (commaToDot s) with
    | some q => Except.ok (Cell.num q)
    | none => Except.error LoadErr.parseError
  | Cell.num _ => Except.error LoadErr.attrError

/-- The whole per-column numeric pass of `load_price_data`:
`replace('-', '0')`, then — only when `isinstance(df[col].iloc[0], str)` —
`.str.replace(',', '.').astype(float)`; otherwise the column is passed
through unchanged. -/
def loadPriceColCells (cells : List String) : Except LoadErr (List Cell) :=
  match ((inferCol cells).map dashSubCell).head? with
  | some (Cell.text _) => mapExc priceConvCell ((inferCol cells).map dashSubCell)
  | _ => Except.ok ((inferCol cells).map dashSubCell)

/-- Extract the numeric value of a cell for use by the chart/summary layer;
a surviving text cell has no numeric value.  Both loaders are proved to
leave only numeric cells, so the `text` branch is unreachable on any
successfully loaded column. -/
def cellToQ (c : Cell) : Except LoadErr ℚ :=
  match c with
  | Cell.num q => Except.ok q
  | Cell.text _ => Except.error LoadErr.attrError

/-- Numeric content of a successfully loaded generation column. -/
def loadGenCol (cells : List String) : Except LoadErr (List ℚ) :=
  match loadGenColCells cells with
  | Except.ok cs => mapExc cellToQ cs
  | Except.error e => Except.error e

/-- Numeric content of a successfully loaded price column. -/
def loadPriceCol (cells : List String) : Except LoadErr (List ℚ) :=
  match loadPriceColCells cells with
  | Except.ok cs => mapExc cellToQ cs
  | Except.error e => Except.error e

/-- One row of a typed table: the parsed `Start date` (as an integer day
index / timestamp) and the mapping from cleaned category name to value. -/
structure Row where
  start : Int
  vals : List (String × ℚ)
deriving DecidableEq

/-- `df_filtered[category]` at one row. -/
def getVal (r : Row) (c : String) : ℚ :=
  (r.vals.lookup c).getD 0

/-- A raw CSV source: the already-parsed `Start date` column and the raw
category columns (header text, cell texts).  `End date` is dropped: it is
parsed for metadata only and never used downstream. -/
structure RawTable where
  startDates : List Int
  cols : List (String × List String)

/-- Assemble rows from per-column data (the DataFrame seen column-wise,
read back row-wise). -/
def mkRows (dates : List Int) (cols : List (String × List ℚ)) : List Row :=
  dates.enum.map (fun p => ⟨p.2, cols.map (fun c => (c.1, c.2.getD p.1 0))⟩)

/-- `load_generation_data`: clean every header, run the generation numeric
pass on every category column, assemble the typed table. -/
def loadGen (raw : RawTable) : Except LoadErr (List Row) :=
  match mapExc (fun c =>
    match loadGenCol c.2 with
    | Except.ok vals => Except.ok (cleanColGen c.1, vals)
    | Except.error e => Except.error e) raw.cols with
  | Except.ok cols => Except.ok (mkRows raw.startDates cols)
  | Except.error e => Except.error e

/-- `load_price_data`: clean every header, run the price numeric pass on
every category column, assemble the typed table. -/
def loadPrice (raw : RawTable) : Except LoadErr (List Row) :=
  match mapExc (fun c =>
    match loadPriceCol c.2 with
    | Except.ok vals => Except.ok (cleanColPrice c.1, vals)
    | Except.error e => Except.error e) raw.cols with
  | Except.ok cols => Except.ok (mkRows raw.startDates cols)
  | Except.error e => Except.error e

/-- The date filter of both callbacks:
`mask = (df['Start date'] >= start_date) & (df['Start date'] <= end_date)`,
`df.loc[mask]` — keep exactly the rows whose start lies in `[s, e]`. -/
def filterByDate (t : List Row) (s e : Int) : List Row :=
  t.filter (fun r => decide (s ≤ r.start) && decide (r.start ≤ e))

/-- pandas `Series.sum`: left fold of addition starting from `0`; `0.0` on
an empty column. -/
def pdSum (xs : List ℚ) : ℚ :=
  xs.foldl (· + ·) 0

/-- pandas `Series.mean`: sum over count; NaN (`none`) on an empty column. -/
def pdMean (xs : List ℚ) : Option ℚ :=
  match xs with
  | [] => none
  | _ => some (pdSum xs / (xs.length : ℚ))

/-- pandas `Series.max`: greatest element; NaN (`none`) on an empty column. -/
def pdMax (xs : List ℚ) : Option ℚ :=
  match xs with
  | [] => none
  | x :: rest => some (rest.foldl max x)

/-- pandas `Series.min`: least element; NaN (`none`) on an empty column. -/
def pdMin (xs : List ℚ) : Option ℚ :=
  match xs with
  | [] => none
  | x :: rest => some (rest.foldl min x)

/-- The values of one category over the rows of a (filtered) table. -/
def colVals (t : List Row) (c : String) : List ℚ :=
  t.map (fun r => getVal r c)

/-- The generation summary of `update_generation_graph`:
`float(df_filtered[source].sum())` per selected source. -/
def summarizeGeneration (t : List Row) (cats : List String) : List (String × ℚ) :=
  cats.map (fun c => (c, pdSum (colVals t c)))

/-- The triple computed per country by `update_price_graph`; `none` models
pandas' NaN on an empty range. -/
structure PriceStats where
  mean : Option ℚ
  max : Option ℚ
  min : Option ℚ
deriving DecidableEq

/-- The price summary of `update_price_graph`:
`float(mean)`, `float(max)`, `float(min)` per selected country, computed
unconditionally (also on an empty filtered table). -/
def summarizePrices (t : List Row) (cats : List String) : List (String × PriceStats) :=
  cats.map (fun c => (c, ⟨pdMean (colVals t c), pdMax (colVals t c), pdMin (colVals t c)⟩))

/-- The `update_generation_graph` recomputation cycle: fresh load, date
filter, chart series (the filtered table) plus per-source totals. -/
def updateGenerationGraph (raw : RawTable) (sources : List String) (s e : Int) :
    Except LoadErr (List Row × List (String × ℚ)) :=
  match loadGen raw with
  | Except.ok df => Except.ok (filterByDate df s e, summarizeGeneration (filterByDate df s e) sources)
  | Except.error err => Except.error err

/-- The `update_price_graph` recomputation cycle: fresh load, date filter,
chart series plus per-country statistics. -/
def updatePriceGraph (raw : RawTable) (countries : List String) (s e : Int) :
    Except LoadErr (List Row × List (String × PriceStats)) :=
  match loadPrice raw with
  | Except.ok df => Except.ok (filterByDate df s e, summarizePrices (filterByDate df s e) countries)
  | Except.error err => Except.error err

/-! ## Helper lemmas about the embedded operations -/

theorem takeWhile_of_all {α : Type} {p : α → Bool} (cs : List α) (h : cs.all p = true) :
    cs.takeWhile p = cs := by
  induction cs with
  | nil => rfl
  | cons c t ih =>
    rw [List.all_cons, Bool.and_eq_true] at h
    simp [List.takeWhile_cons, h.1, ih h.2]

theorem dropWhile_of_all {α : Type} {p : α → Bool} (cs : List α) (h : cs.all p = true) :
    cs.dropWhile p = [] := by
  induction cs with
  | nil => rfl
  | cons c t ih =>
    rw [List.all_cons, Bool.and_eq_true] at h
    simp [List.dropWhile_cons, h.1, ih h.2]

theorem foldl_add_from (xs : List ℚ) : ∀ a : ℚ, xs.foldl (· + ·) a = a + xs.sum := by
  induction xs with
  | nil => intro a; simp
  | cons x t ih =>
    intro a
    rw [List.foldl_cons, ih, List.sum_cons]
    ring

theorem pdSum_eq_sum (xs : List ℚ) : pdSum xs = xs.sum := by
  rw [pdSum, foldl_add_from, zero_add]

theorem foldl_max_spec (t : List ℚ) : ∀ a : ℚ,
    (t.foldl max a = a ∨ t.foldl max a ∈ t) ∧ a ≤ t.foldl max a ∧
      ∀ x ∈ t, x ≤ t.foldl max a := by
  induction t with
  | nil =>
    intro a
    exact ⟨Or.inl rfl, le_refl a, by intro x hx; exact absurd hx (List.not_mem_nil x)⟩
  | cons b t ih =>
    intro a
    obtain ⟨hmem, hle, hall⟩ := ih (max a b)
    rw [List.foldl_cons]
    refine ⟨?_, ?_, ?_⟩
    · rcases hmem with h | h
      · rcases max_choice a b with hc | hc
        · exact Or.inl (h.trans hc)
        · exact Or.inr (by rw [h, hc]; exact List.mem_cons_self b t)
      · exact Or.inr (List.mem_cons_of_mem b h)
    · exact le_trans (le_max_left a b) hle
    · intro x hx
      rcases List.mem_cons.mp hx with rfl | hx
      · exact le_trans (le_max_right a x) hle
      · exact hall x hx

theorem foldl_min_spec (t : List ℚ) : ∀ a : ℚ,
    (t.foldl min a = a ∨ t.foldl min a ∈ t) ∧ t.foldl min a ≤ a ∧
      ∀ x ∈ t, t.foldl min a ≤ x := by
  induction t with
  | nil =>
    intro a
    exact ⟨Or.inl rfl, le_refl a, by intro x hx; exact absurd hx (List.not_mem_nil x)⟩
  | cons b t ih =>
    intro a
    obtain ⟨hmem, hle, hall⟩ := ih (min a b)
    rw [List.foldl_cons]
    refine ⟨?_, ?_, ?_⟩
    · rcases hmem with h | h
      · rcases min_choice a b with hc | hc
        · exact Or.inl (h.trans hc)
        · exact Or.inr (by rw [h, hc]; exact List.mem_cons_self b t)
      · exact Or.inr (List.mem_cons_of_mem b h)
    · exact le_trans hle (min_le_left a b)
    · intro x hx
      rcases List.mem_cons.mp hx with rfl | hx
      · exact le_trans hle (min_le_right a x)
      · exact hall x hx

theorem pdMax_spec (xs : List ℚ) (h : xs ≠ []) :
    ∃ M, pdMax xs = some M ∧ M ∈ xs ∧ ∀ x ∈ xs, x ≤ M := by
  cases xs with
  | nil => exact absurd rfl h
  | cons x t =>
    obtain ⟨hmem, hle, hall⟩ := foldl_max_spec t x
    refine ⟨t.foldl max x, rfl, ?_, ?_⟩
    · rcases hmem with h | h
      · rw [h]; exact List.mem_cons_self x t
      · exact List.mem_cons_of_mem x h
    · intro y hy
      rcases List.mem_cons.mp hy with rfl | hy
      · exact hle
      · exact hall y hy

theorem digit_ne_dash {c : Char} (h : c.isDigit = true) : c ≠ '-' := by
  intro he
  subst he
  exact absurd h (by decide)

theorem digit_ne_plus {c : Char} (h : c.isDigit = true) : c ≠ '+' := by
  intro he
  subst he
  exact absurd h (by decide)

theorem digit_ne_comma {c : Char} (h : c.isDigit = true) : c ≠ ',' := by
  intro he
  subst he
  exact absurd h (by decide)

theorem parseUnsigned_digits (cs : List Char) (h : cs.all Char.isDigit = true)
    (hne : cs ≠ []) : parseUnsigned cs = some (digitsToNat cs : ℚ) := by
  unfold parseUnsigned
  rw [dropWhile_of_all cs h, takeWhile_of_all cs h]
  simp [List.isEmpty_iff, hne, Rat.mkRat_one]

theorem parsePyFloat_digits (cs : List Char) (h : cs.all Char.isDigit = true)
    (hne : cs ≠ []) : parsePyFloat (String.mk cs) = some (digitsToNat cs : ℚ) := by
  cases cs with
  | nil => exact absurd rfl hne
  | cons c t =>
    have hall := h
    rw [List.all_cons, Bool.and_eq_true] at h
    have hdash : c ≠ '-' := digit_ne_dash h.1
    have hplus : c ≠ '+' := digit_ne_plus h.1
    unfold parsePyFloat
    have htl : (String.mk (c :: t)).toList = c :: t := rfl
    rw [htl]
    split
    · next cs1 heq =>
      exact absurd (List.cons.injEq .. ▸ heq).1 hdash
    · next cs1 heq =>
      exact absurd (List.cons.injEq .. ▸ heq).1 hplus
    · next =>
      exact parseUnsigned_digits (c :: t) hall hne

theorem filter_comma_of_digits (cs : List Char) (h : cs.all Char.isDigit = true) :
    cs.filter (fun c => c ≠ ',') = cs := by
  rw [List.filter_eq_self]
  intro a ha
  simpa using digit_ne_comma (List.all_eq_true.mp h a ha)

theorem beforeFirst_boundary (name rest : List Char) (h : '[' ∉ name) :
    beforeFirst (name ++ ' ' :: '[' :: rest) = name := by
  induction name with
  | nil => simp [beforeFirst]
  | cons c t ih =>
    have hc : c ≠ '[' := fun he => h (he ▸ List.mem_cons_self c t)
    have ht : '[' ∉ t := fun hm => h (List.mem_cons_of_mem c hm)
    cases t with
    | nil =>
      have : ¬(c = ' ' ∧ ' ' = '[') := fun hp => by cases hp.2
      simp [beforeFirst, this]
    | cons c2 t2 =>
      have hc2 : c2 ≠ '[' := fun he => ht (he ▸ List.mem_cons_self c2 t2)
      have hcond : ¬(c = ' ' ∧ c2 = '[') := fun hp => hc2 hp.2
      rw [List.cons_append, List.cons_append]
      rw [show beforeFirst (c :: c2 :: (t2 ++ ' ' :: '[' :: rest)) =
        if c = ' ' ∧ c2 = '[' then []
        else c :: beforeFirst (c2 :: (t2 ++ ' ' :: '[' :: rest)) from rfl]
      rw [if_neg hcond]
      rw [← List.cons_append]
      rw [ih ht]

theorem takeWhile_boundary (name rest : List Char) (h : '[' ∉ name) :
    (name ++ ' ' :: '[' :: rest).takeWhile (fun c => c ≠ '[') = name ++ [' '] := by
  induction name with
  | nil => simp [List.takeWhile_cons]
  | cons c t ih =>
    have hc : c ≠ '[' := fun he => h (he ▸ List.mem_cons_self c t)
    have ht : '[' ∉ t := fun hm => h (List.mem_cons_of_mem c hm)
    rw [List.cons_append]
    simp only [List.takeWhile_cons]
    simp only [hc, decide_not, if_true]
    simp [hc]
    simpa using ih ht

theorem mapOpt_eq_none_of_mem {α β : Type} (f : α → Option β) (l : List α) (a : α)
    (ha : a ∈ l) (hf : f a = none) : mapOpt f l = none := by
  induction l with
  | nil => exact absurd ha (List.not_mem_nil a)
  | cons b t ih =>
    rcases List.mem_cons.mp ha with rfl | hat
    · simp [mapOpt, hf]
    · cases hb : f b with
      | none => simp [mapOpt, hb]
      | some y => simp [mapOpt, hb, ih hat]

theorem mapOpt_map {α β γ : Type} (f : β → Option γ) (g : α → β) (l : List α) :
    mapOpt f (l.map g) = mapOpt (fun a => f (g a)) l := by
  induction l with
  | nil => rfl
  | cons a t ih =>
    simp only [List.map_cons, mapOpt, ih]

theorem mapExc_error_of_mem {α β ε : Type} (f : α → Except ε β) (l : List α) (a : α)
    (e : ε) (ha : a ∈ l) (hfa : f a = Except.error e)
    (hall : ∀ x ∈ l, f x = Except.error e ∨ ∃ y, f x = Except.ok y) :
    mapExc f l = Except.error e := by
  induction l with
  | nil => exact absurd ha (List.not_mem_nil a)
  | cons b t ih =>
    rcases hall b (List.mem_cons_self b t) with hb | ⟨y, hb⟩
    · simp [mapExc, hb]
    · have hat : a ∈ t := by
        rcases List.mem_cons.mp ha with rfl | hat
        · rw [hfa] at hb; exact Except.noConfusion hb
        · exact hat
      have := ih hat (fun x hx => hall x (List.mem_cons_of_mem b hx))
      simp [mapExc, hb, this]

theorem mapExc_cellToQ_num (qs : List ℚ) :
    mapExc cellToQ (qs.map Cell.num) = Except.ok qs := by
  induction qs with
  | nil => rfl
  | cons q t ih => simp [mapExc, cellToQ, List.map_cons, ih]

theorem pdMin_spec (xs : List ℚ) (h : xs ≠ []) :
    ∃ m, pdMin xs = some m ∧ m ∈ xs ∧ ∀ x ∈ xs, m ≤ x := by
  cases xs with
  | nil => exact absurd rfl h
  | cons x t =>
    obtain ⟨hmem, hle, hall⟩ := foldl_min_spec t x
    refine ⟨t.foldl min x, rfl, ?_, ?_⟩
    · rcases hmem with h | h
      · rw [h]; exact List.mem_cons_self x t
      · exact List.mem_cons_of_mem x h
    · intro y hy
      rcases List.mem_cons.mp hy with rfl | hy
      · exact hle
      · exact hall y hy

theorem inferCol_num (cells : List String) (qs : List ℚ)
    (h : mapOpt parsePyFloat cells = some qs) : inferCol cells = qs.map Cell.num := by
  unfold inferCol
  rw [h]

theorem inferCol_text (cells : List String)
    (h : mapOpt parsePyFloat cells = none) : inferCol cells = cells.map Cell.text := by
  unfold inferCol
  rw [h]

theorem map_dashSubCell_num (qs : List ℚ) :
    (qs.map Cell.num).map dashSubCell = qs.map Cell.num := by
  rw [List.map_map]
  rfl

theorem map_dashSubCell_text (ss : List String) :
    (ss.map Cell.text).map dashSubCell = (ss.map dashSub).map Cell.text := by
  rw [List.map_map, List.map_map]
  rfl

theorem mapExc_genConv_text (ss : List String) :
    mapExc genConvCell (ss.map Cell.text) =
      match mapOpt (fun s => parsePyFloat (stripCommas s)) ss with
      | some qs => Except.ok qs
      | none => Except.error LoadErr.parseError := by
  induction ss with
  | nil => rfl
  | cons s t ih =>
    simp only [List.map_cons, mapExc, genConvCell, mapOpt, ih]
    cases hp : parsePyFloat (stripCommas s) with
    | none => rfl
    | some q =>
      cases ht : mapOpt (fun s => parsePyFloat (stripCommas s)) t with
      | none => rfl
      | some qs => rfl

theorem mapExc_priceConv_text (ss : List String) :
    mapExc priceConvCell (ss.map Cell.text) =
      match mapOpt (fun s => parsePyFloat (commaToDot s)) ss with
      | some qs => Except.ok (qs.map Cell.num)
      | none => Except.error LoadErr.parseError := by
  induction ss with
  | nil => rfl
  | cons s t ih =>
    simp only [List.map_cons, mapExc, priceConvCell, mapOpt, ih]
    cases hp : parsePyFloat (commaToDot s) with
    | none => rfl
    | some q =>
      cases ht : mapOpt (fun s => parsePyFloat (commaToDot s)) t with
      | none => rfl
      | some qs => rfl

theorem loadPriceColCells_num (cells : List String) (qs : List ℚ)
    (h : mapOpt parsePyFloat cells = some qs) :
    loadPriceColCells cells = Except.ok (qs.map Cell.num) := by
  unfold loadPriceColCells
  rw [inferCol_num cells qs h, map_dashSubCell_num]
  cases qs with
  | nil => rfl
  | cons q t => rfl

theorem loadPriceColCells_text (cells : List String)
    (h : mapOpt parsePyFloat cells = none) :
    loadPriceColCells cells =
      match mapOpt normalizePriceField cells with
      | some rs => Except.ok (rs.map Cell.num)
      | none => Except.error LoadErr.parseError := by
  have hne : cells ≠ [] := by
    intro he
    subst he
    exact Option.noConfusion h
  unfold loadPriceColCells
  rw [inferCol_text cells h, map_dashSubCell_text]
  have hkey : mapOpt (fun s => parsePyFloat (commaToDot s)) (cells.map dashSub) =
      mapOpt normalizePriceField cells := by
    rw [mapOpt_map]
    rfl
  cases cells with
  | nil => exact absurd rfl hne
  | cons c t =>
    simp only [List.map_cons, List.head?_cons]
    have hmx := mapExc_priceConv_text (dashSub c :: t.map dashSub)
    simp only [List.map_cons] at hmx
    rw [hmx]
    simp only [List.map_cons] at hkey
    rw [hkey]

theorem loadGenColCells_text (cells : List String)
    (h : mapOpt parsePyFloat cells = none) :
    loadGenColCells cells =
      match mapOpt normalizeGenField cells with
      | some rs => Except.ok (rs.map Cell.num)
      | none => Except.error LoadErr.parseError := by
  unfold loadGenColCells
  rw [inferCol_text cells h, map_dashSubCell_text, mapExc_genConv_text]
  have hkey : mapOpt (fun s => parsePyFloat (stripCommas s)) (cells.map dashSub) =
      mapOpt normalizeGenField cells := by
    rw [mapOpt_map]
    rfl
  rw [hkey]
  cases mapOpt normalizeGenField cells with
  | none => rfl
  | some rs => rfl

theorem loadPriceCol_cases (cells : List String) :
    (∃ qs, loadPriceCol cells = Except.ok qs) ∨
      loadPriceCol cells = Except.error LoadErr.parseError := by
  unfold loadPriceCol
  cases hopt : mapOpt parsePyFloat cells with
  | some qs =>
    rw [loadPriceColCells_num cells qs hopt]
    exact Or.inl ⟨qs, mapExc_cellToQ_num qs⟩
  | none =>
    rw [loadPriceColCells_text cells hopt]
    cases hnorm : mapOpt normalizePriceField cells with
    | some rs => exact Or.inl ⟨rs, mapExc_cellToQ_num rs⟩
    | none => exact Or.inr rfl

theorem loadGenCol_text_cases (cells : List String)
    (h : mapOpt parsePyFloat cells = none) :
    (∃ qs, loadGenCol cells = Except.ok qs) ∨
      loadGenCol cells = Except.error LoadErr.parseError := by
  unfold loadGenCol
  rw [loadGenColCells_text cells h]
  cases hnorm : mapOpt normalizeGenField cells with
  | some rs => exact Or.inl ⟨rs, mapExc_cellToQ_num rs⟩
  | none => exact Or.inr rfl

theorem loadGenCol_bad (cells : List String) (s : String)
    (hs : s ∈ cells) (htext : mapOpt parsePyFloat cells = none)
    (hbad : normalizeGenField s = none) :
    loadGenCol cells = Except.error LoadErr.parseError := by
  unfold loadGenCol
  rw [loadGenColCells_text cells htext,
    mapOpt_eq_none_of_mem normalizeGenField cells s hs hbad]

theorem loadPriceCol_bad (cells : List String) (s : String)
    (hs : s ∈ cells) (htext : mapOpt parsePyFloat cells = none)
    (hbad : normalizePriceField s = none) :
    loadPriceCol cells = Except.error LoadErr.parseError := by
  unfold loadPriceCol
  rw [loadPriceColCells_text cells htext,
    mapOpt_eq_none_of_mem normalizePriceField cells s hs hbad]

/-! ## Claim theorems -/

/-- C2 fails as stated: the loaders split a header at the first occurrence
of the two-character sequence `" ["`, not at the first `[`.  On the header
`"a[b]"`, which contains `[` but not `" ["`, the loaders keep the header
verbatim while the claimed rule (text before the first `[`, right-trimmed)
yields `"a"`. -/
theorem c2_counterexample : cleanColGen "a[b]" ≠ specCleanCol "a[b]" := by
  decide

/-- C2 (amended): the generation and the price loader apply the identical
cleanup rule; a header without `[` is kept unchanged; a header of the form
`name ++ " [" ++ rest` whose name part contains no `[` is cleaned to
`name`; and on such headers whose name part also carries no trailing
whitespace the code's rule coincides with the spec's
before-first-bracket-right-trim rule. -/
theorem c2_header_cleanup (col plain : String) (name rest : List Char)
    (hplain : '[' ∉ plain.toList) (hname : '[' ∉ name)
    (htrim : name.reverse.dropWhile Char.isWhitespace = name.reverse) :
    cleanColGen col = cleanColPrice col ∧
    cleanColGen plain = plain ∧
    cleanColGen (String.mk (name ++ ' ' :: '[' :: rest)) = String.mk name ∧
    specCleanCol (String.mk (name ++ ' ' :: '[' :: rest)) = String.mk name := by
  have hmem : '[' ∈ (String.mk (name ++ ' ' :: '[' :: rest)).toList := by
    show '[' ∈ name ++ ' ' :: '[' :: rest
    exact List.mem_append_right name (List.mem_cons_of_mem ' ' (List.mem_cons_self '[' rest))
  refine ⟨rfl, ?_, ?_, ?_⟩
  · unfold cleanColGen
    rw [if_neg hplain]
  · unfold cleanColGen
    rw [if_pos hmem]
    show String.mk (beforeFirst (name ++ ' ' :: '[' :: rest)) = String.mk name
    rw [beforeFirst_boundary name rest hname]
  · unfold specCleanCol
    rw [if_pos hmem]
    show String.mk ((((name ++ ' ' :: '[' :: rest).takeWhile
      (fun c => c ≠ '[')).reverse.dropWhile Char.isWhitespace).reverse) = String.mk name
    rw [takeWhile_boundary name rest hname]
    rw [List.reverse_append]
    rw [show ([' '] : List Char).reverse = [' '] from rfl]
    rw [List.singleton_append]
    rw [show List.dropWhile Char.isWhitespace (' ' :: name.reverse) =
      List.dropWhile Char.isWhitespace name.reverse from by
        simp [List.dropWhile_cons]]
    rw [htrim, List.reverse_reverse]

/-- Witness for `c2_header_cleanup` at the concrete header `"W [M]"`. -/
theorem c2_header_cleanup_witness :
    cleanColGen (String.mk (['W'] ++ ' ' :: '[' :: ['M', ']'])) = String.mk ['W'] :=
  (c2_header_cleanup "x" "plain" ['W'] ['M', ']']
    (by decide) (by decide) (by decide)).2.2.1

/-- C3 fails as stated: the generation loader strips commas, not periods,
so the input `"1.234"` parses as the fraction 1.234, not as the grouped
integer 1234. -/
theorem c3_counterexample : normalizeGenField "1.234" ≠ some (1234 : ℚ) := by
  decide

/-- C3 (amended): the generation normalizer first maps the missing-value
marker `-` to the literal text `0`, then removes all occurrences of the
comma (the thousands separator of this export), then converts to float:
`"-"` normalizes to 0, `"1,234"` to 1234, and in general a digit string
with one interior comma normalizes to the number formed by the digits with
the comma dropped. -/
theorem c3_gen_normalizer (ds1 ds2 : List Char)
    (h1 : ds1.all Char.isDigit = true) (h2 : ds2.all Char.isDigit = true)
    (hne : ds1 ≠ []) :
    normalizeGenField "-" = some 0 ∧
    normalizeGenField "1,234" = some 1234 ∧
    normalizeGenField (String.mk (ds1 ++ ',' :: ds2)) =
      some (digitsToNat (ds1 ++ ds2) : ℚ) := by
  refine ⟨by decide, by decide, ?_⟩
  have hdall : (ds1 ++ ds2).all Char.isDigit = true := by
    rw [List.all_append, Bool.and_eq_true]
    exact ⟨h1, h2⟩
  have hdne : ds1 ++ ds2 ≠ [] := by
    intro he
    exact hne (List.append_eq_nil.mp he).1
  have hlne : ds1.length ≠ 0 := fun h0 => hne (List.length_eq_zero.mp h0)
  have hns : String.mk (ds1 ++ ',' :: ds2) ≠ "-" := by
    intro he
    have hlist : ds1 ++ ',' :: ds2 = ['-'] := congrArg String.toList he
    have hlen := congrArg List.length hlist
    simp [List.length_append] at hlen
    omega
  unfold normalizeGenField genNormalizedText dashSub
  rw [if_neg hns]
  unfold stripCommas
  rw [show (String.mk (ds1 ++ ',' :: ds2)).toList = ds1 ++ ',' :: ds2 from rfl]
  rw [List.filter_append]
  rw [filter_comma_of_digits ds1 h1]
  rw [show List.filter (fun c => (c ≠ ',' : Bool)) (',' :: ds2) =
    ds2.filter (fun c => (c ≠ ',' : Bool)) from by simp [List.filter_cons]]
  rw [filter_comma_of_digits ds2 h2]
  exact parsePyFloat_digits (ds1 ++ ds2) hdall hdne

/-- Witness for `c3_gen_normalizer` at `"1,234"`. -/
theorem c3_gen_normalizer_witness :
    normalizeGenField (String.mk (['1'] ++ ',' :: ['2', '3', '4'])) =
      some (digitsToNat (['1'] ++ ['2', '3', '4']) : ℚ) :=
  (c3_gen_normalizer ['1'] ['2', '3', '4'] (by decide) (by decide) (by decide)).2.2

/-- C4 (confirmed): the price normalizer maps the missing-value marker `-`
to 0.0 and turns the comma into a decimal point before float conversion;
the substitution runs only on a still-textual column, while an
already-numeric column is passed through unchanged; and `"45,67"`
normalizes to 45.67.  `cellsA` is a column pandas inferred as numeric (all
fields parse), `cellsB` one kept textual. -/
theorem c4_price_normalizer (cellsA cellsB : List String) (qs rs : List ℚ)
    (hA : mapOpt parsePyFloat cellsA = some qs)
    (hB : mapOpt parsePyFloat cellsB = none)
    (hB2 : mapOpt normalizePriceField cellsB = some rs) :
    normalizePriceField "-" = some 0 ∧
    normalizePriceField "45,67" = some (4567 / 100 : ℚ) ∧
    loadPriceColCells cellsA = Except.ok (qs.map Cell.num) ∧
    loadPriceColCells cellsB = Except.ok (rs.map Cell.num) := by
  refine ⟨by decide, ?_, loadPriceColCells_num cellsA qs hA, ?_⟩
  · have h : normalizePriceField "45,67" = some (mkRat 4567 100) := by decide
    rw [h, Rat.mkRat_eq_div]
    norm_num
  · rw [loadPriceColCells_text cellsB hB, hB2]

/-- Witness for `c4_price_normalizer`: the numeric column `["10"]` is
passed through, the textual column `["45,67"]` is converted. -/
theorem c4_price_normalizer_witness :
    loadPriceColCells ["10"] = Except.ok ([(10 : ℚ)].map Cell.num) ∧
    loadPriceColCells ["45,67"] = Except.ok ([mkRat 4567 100].map Cell.num) :=
  ⟨(c4_price_normalizer ["10"] ["45,67"] [10] [mkRat 4567 100]
      (by decide) (by decide) (by decide)).2.2.1,
    (c4_price_normalizer ["10"] ["45,67"] [10] [mkRat 4567 100]
      (by decide) (by decide) (by decide)).2.2.2⟩

/-- C5 (confirmed): `filterByDate` returns exactly the subsequence of rows
whose start timestamp lies in the inclusive interval `[s, e]`; when
`s > e` it returns an empty table rather than failing; rows outside the
loaded range are simply absent (membership characterization). -/
theorem c5_filter_by_date (t : List Row) (s e : Int) :
    List.Sublist (filterByDate t s e) t ∧
    (∀ r : Row, r ∈ filterByDate t s e ↔ r ∈ t ∧ s ≤ r.start ∧ r.start ≤ e) ∧
    (e < s → filterByDate t s e = []) := by
  refine ⟨List.filter_sublist t, ?_, ?_⟩
  · intro r
    rw [filterByDate, List.mem_filter]
    simp [Bool.and_eq_true, decide_eq_true_eq]
  · intro hlt
    rw [filterByDate, List.filter_eq_nil_iff]
    intro r _
    simp only [Bool.and_eq_true, decide_eq_true_eq, not_and]
    intro h1 h2
    omega

/-- Witness for `c5_filter_by_date`: a reversed range yields no rows. -/
theorem c5_filter_by_date_witness :
    filterByDate [Row.mk 5 [("X", 1)]] 12 3 = [] :=
  (c5_filter_by_date [Row.mk 5 [("X", 1)]] 12 3).2.2 (by decide)

theorem pdMean_eq (xs : List ℚ) (h : xs ≠ []) :
    pdMean xs = some (xs.sum / (xs.length : ℚ)) := by
  cases xs with
  | nil => exact absurd rfl h
  | cons x t =>
    show some (pdSum (x :: t) / ((x :: t).length : ℚ)) = _
    rw [pdSum_eq_sum]

theorem colVals_length (t : List Row) (c : String) :
    (colVals t c).length = t.length := by
  simp [colVals]

theorem colVals_ne_nil (t : List Row) (c : String) (h : t ≠ []) :
    colVals t c ≠ [] := by
  intro he
  apply h
  have := congrArg List.length he
  rw [colVals_length] at this
  exact List.length_eq_zero.mp this

/-- C6 (confirmed): per selected category, `summarizeGeneration` reports
the sum of that category's values over exactly the filtered rows, and on a
non-empty table `summarizePrices` reports their arithmetic mean together
with a greatest and a least element of the column; the concrete column
`[10, 20, 30]` yields mean 20, max 30, min 10. -/
theorem c6_aggregates (t : List Row) (cats : List String) (c : String)
    (hc : c ∈ cats) (hne : t ≠ []) :
    (c, (colVals t c).sum) ∈ summarizeGeneration t cats ∧
    (∃ st : PriceStats, (c, st) ∈ summarizePrices t cats ∧
      st.mean = some ((colVals t c).sum / (t.length : ℚ)) ∧
      (∃ M, st.max = some M ∧ M ∈ colVals t c ∧ ∀ x ∈ colVals t c, x ≤ M) ∧
      (∃ m, st.min = some m ∧ m ∈ colVals t c ∧ ∀ x ∈ colVals t c, m ≤ x)) ∧
    summarizePrices [⟨1, [("X", 10)]⟩, ⟨2, [("X", 20)]⟩, ⟨3, [("X", 30)]⟩] ["X"] =
      [("X", ⟨some 20, some 30, some 10⟩)] := by
  have hcv : colVals t c ≠ [] := colVals_ne_nil t c hne
  refine ⟨?_, ?_, ?_⟩
  · rw [← pdSum_eq_sum]
    exact List.mem_map_of_mem (fun c => (c, pdSum (colVals t c))) hc
  · obtain ⟨M, hM, hMmem, hMle⟩ := pdMax_spec (colVals t c) hcv
    obtain ⟨m, hm, hmmem, hmle⟩ := pdMin_spec (colVals t c) hcv
    refine ⟨⟨pdMean (colVals t c), pdMax (colVals t c), pdMin (colVals t c)⟩,
      List.mem_map_of_mem _ hc, ?_, ⟨M, hM, hMmem, hMle⟩, ⟨m, hm, hmmem, hmle⟩⟩
    show pdMean (colVals t c) = some ((colVals t c).sum / (t.length : ℚ))
    rw [pdMean_eq (colVals t c) hcv, colVals_length]
  · simp [summarizePrices, colVals, getVal, pdMean, pdSum, pdMax, pdMin, List.lookup]
    norm_num [max_def, min_def]

/-- Witness for `c6_aggregates` on the three-row price table. -/
theorem c6_aggregates_witness :
    ("X", (colVals [⟨1, [("X", 10)]⟩, ⟨2, [("X", 20)]⟩, ⟨3, [("X", 30)]⟩] "X").sum) ∈
      summarizeGeneration [⟨1, [("X", 10)]⟩, ⟨2, [("X", 20)]⟩, ⟨3, [("X", 30)]⟩] ["X"] :=
  (c6_aggregates [⟨1, [("X", 10)]⟩, ⟨2, [("X", 20)]⟩, ⟨3, [("X", 30)]⟩] ["X"] "X"
    (by decide) (by decide)).1

/-- C7 (confirmed): a field whose text, after the missing-marker and
separator substitutions, is not a valid real number makes the load fail
with the parse error — for the generation loader under the (always true
for the real exports) assumption that every column stays textual, and for
the price loader whenever the offending column stays textual.  No
malformed field is ever silently coerced: the whole load aborts. -/
theorem c7_parse_failure (rawG rawP : RawTable)
    (colG : String × List String) (sG : String)
    (hGmem : colG ∈ rawG.cols) (hsG : sG ∈ colG.2)
    (hGtext : ∀ p ∈ rawG.cols, mapOpt parsePyFloat p.2 = none)
    (hGbad : normalizeGenField sG = none)
    (colP : String × List String) (sP : String)
    (hPmem : colP ∈ rawP.cols) (hsP : sP ∈ colP.2)
    (hPtext : mapOpt parsePyFloat colP.2 = none)
    (hPbad : normalizePriceField sP = none) :
    loadGen rawG = Except.error LoadErr.parseError ∧
    loadPrice rawP = Except.error LoadErr.parseError := by
  constructor
  · have hcol : (match loadGenCol colG.2 with
        | Except.ok vals => Except.ok (cleanColGen colG.1, vals)
        | Except.error e => (Except.error e : Except LoadErr (String × List ℚ)))
        = Except.error LoadErr.parseError := by
      rw [loadGenCol_bad colG.2 sG hsG (hGtext colG hGmem) hGbad]
    have hall : ∀ x ∈ rawG.cols,
        (match loadGenCol x.2 with
          | Except.ok vals => Except.ok (cleanColGen x.1, vals)
          | Except.error e => (Except.error e : Except LoadErr (String × List ℚ)))
          = Except.error LoadErr.parseError ∨
        ∃ y, (match loadGenCol x.2 with
          | Except.ok vals => Except.ok (cleanColGen x.1, vals)
          | Except.error e => (Except.error e : Except LoadErr (String × List ℚ)))
          = Except.ok y := by
      intro x hx
      rcases loadGenCol_text_cases x.2 (hGtext x hx) with ⟨qs, hq⟩ | hq
      · exact Or.inr ⟨(cleanColGen x.1, qs), by rw [hq]⟩
      · exact Or.inl (by rw [hq])
    unfold loadGen
    rw [mapExc_error_of_mem _ rawG.cols colG LoadErr.parseError hGmem hcol hall]
  · have hcol : (match loadPriceCol colP.2 with
        | Except.ok vals => Except.ok (cleanColPrice colP.1, vals)
        | Except.error e => (Except.error e : Except LoadErr (String × List ℚ)))
        = Except.error LoadErr.parseError := by
      rw [loadPriceCol_bad colP.2 sP hsP hPtext hPbad]
    have hall : ∀ x ∈ rawP.cols,
        (match loadPriceCol x.2 with
          | Except.ok vals => Except.ok (cleanColPrice x.1, vals)
          | Except.error e => (Except.error e : Except LoadErr (String × List ℚ)))
          = Except.error LoadErr.parseError ∨
        ∃ y, (match loadPriceCol x.2 with
          | Except.ok vals => Except.ok (cleanColPrice x.1, vals)
          | Except.error e => (Except.error e : Except LoadErr (String × List ℚ)))
          = Except.ok y := by
      intro x _
      rcases loadPriceCol_cases x.2 with ⟨qs, hq⟩ | hq
      · exact Or.inr ⟨(cleanColPrice x.1, qs), by rw [hq]⟩
      · exact Or.inl (by rw [hq])
    unfold loadPrice
    rw [mapExc_error_of_mem _ rawP.cols colP LoadErr.parseError hPmem hcol hall]

/-- Witness for `c7_parse_failure`: a generation file with the malformed
field `"x,y"` and a price file with the malformed field `"bad"`. -/
theorem c7_parse_failure_witness :
    loadGen ⟨[1], [("G [MWh]", ["x,y"])]⟩ = Except.error LoadErr.parseError ∧
    loadPrice ⟨[1], [("P [EUR]", ["bad"])]⟩ = Except.error LoadErr.parseError :=
  c7_parse_failure ⟨[1], [("G [MWh]", ["x,y"])]⟩ ⟨[1], [("P [EUR]", ["bad"])]⟩
    ("G [MWh]", ["x,y"]) "x,y" (by decide) (by decide) (by decide) (by decide)
    ("P [EUR]", ["bad"]) "bad" (by decide) (by decide) (by decide) (by decide)

/-- C8 (confirmed): after a successful numeric pass of either loader,
every cell of the resulting column is strictly numeric — no textual
marker survives.  For the price loader this also covers the passthrough
branch, because `read_csv` type inference only ever passes through a
column that is homogeneously numeric. -/
theorem c8_numeric_invariant (cellsG cellsP : List String) (outG outP : List Cell)
    (hG : loadGenColCells cellsG = Except.ok outG)
    (hP : loadPriceColCells cellsP = Except.ok outP) :
    (∀ cl ∈ outG, ∃ q, cl = Cell.num q) ∧
    (∀ cl ∈ outP, ∃ q, cl = Cell.num q) := by
  constructor
  · unfold loadGenColCells at hG
    cases hmx : mapExc genConvCell ((inferCol cellsG).map dashSubCell) with
    | error e =>
      rw [hmx] at hG
      exact Except.noConfusion hG
    | ok qs =>
      rw [hmx] at hG
      have hG2 : Except.ok (qs.map Cell.num) = (Except.ok outG : Except LoadErr (List Cell)) := hG
      have hout : qs.map Cell.num = outG := Except.ok.inj hG2
      intro cl hcl
      rw [← hout] at hcl
      obtain ⟨q, _, rfl⟩ := List.mem_map.mp hcl
      exact ⟨q, rfl⟩
  · cases hopt : mapOpt parsePyFloat cellsP with
    | some qs =>
      rw [loadPriceColCells_num cellsP qs hopt] at hP
      have hout : qs.map Cell.num = outP := Except.ok.inj hP
      intro cl hcl
      rw [← hout] at hcl
      obtain ⟨q, _, rfl⟩ := List.mem_map.mp hcl
      exact ⟨q, rfl⟩
    | none =>
      rw [loadPriceColCells_text cellsP hopt] at hP
      cases hnorm : mapOpt normalizePriceField cellsP with
      | none =>
        rw [hnorm] at hP
        exact Except.noConfusion hP
      | some rs =>
        rw [hnorm] at hP
        have hP2 : Except.ok (rs.map Cell.num) = (Except.ok outP : Except LoadErr (List Cell)) := hP
        have hout : rs.map Cell.num = outP := Except.ok.inj hP2
        intro cl hcl
        rw [← hout] at hcl
        obtain ⟨q, _, rfl⟩ := List.mem_map.mp hcl
        exact ⟨q, rfl⟩

/-- Witness for `c8_numeric_invariant` on the columns `["1,0"]` and
`["45,67"]`. -/
theorem c8_numeric_invariant_witness :
    (∀ cl ∈ [Cell.num (10 : ℚ)], ∃ q, cl = Cell.num q) ∧
    (∀ cl ∈ [Cell.num (mkRat 4567 100)], ∃ q, cl = Cell.num q) :=
  c8_numeric_invariant ["1,0"] ["45,67"] [Cell.num 10] [Cell.num (mkRat 4567 100)]
    (by decide) (by decide)

/-- C1 fails as stated: on a price table whose date filter selects zero
rows and a non-empty category selection, `update_price_graph` does not
fail — there is no `EmptyRangeError` anywhere in the code — it computes
`float(mean)`, `float(max)`, `float(min)` of an empty column, which are
NaN (modelled `none`), and returns them silently. -/
theorem c1_counterexample :
    updatePriceGraph ⟨[5], [("X [EUR]", ["45,67"])]⟩ ["X"] 10 11 =
      Except.ok ([], [("X", ⟨none, none, none⟩)]) := by
  decide

/-- C1 (amended): on a date-filtered price table with zero rows,
`summarizePrices` silently returns the NaN triple (mean, max and min all
undefined) for every selected category instead of raising an error. -/
theorem c1_empty_range (df : List Row) (s e : Int) (cats : List String)
    (h : filterByDate df s e = []) :
    summarizePrices (filterByDate df s e) cats =
      cats.map (fun c => (c, PriceStats.mk none none none)) := by
  rw [h]
  simp [summarizePrices, colVals, pdMean, pdMax, pdMin]

/-- Witness for `c1_empty_range`: one row at day 5, range `[10, 11]`. -/
theorem c1_empty_range_witness :
    summarizePrices (filterByDate [Row.mk 5 [("X", 1)]] 10 11) ["X"] =
      ["X"].map (fun c => (c, PriceStats.mk none none none)) :=
  c1_empty_range [Row.mk 5 [("X", 1)]] 10 11 ["X"] (by decide)

/-- C9 (confirmed): loading the same unchanged source twice yields
row-for-row identical tables, and each recomputation cycle's outputs are
exactly those computed from a fresh load of the source — the callbacks
call the loader anew on every invocation and never reuse a cached
table. -/
theorem c9_fresh_reload (rawG rawP : RawTable) (g1 g2 p1 p2 : List Row)
    (hg1 : loadGen rawG = Except.ok g1) (hg2 : loadGen rawG = Except.ok g2)
    (hp1 : loadPrice rawP = Except.ok p1) (hp2 : loadPrice rawP = Except.ok p2) :
    (∀ i : Nat, g1.get? i = g2.get? i) ∧ (∀ i : Nat, p1.get? i = p2.get? i) ∧
    (∀ sources s e, updateGenerationGraph rawG sources s e =
      Except.ok (filterByDate g1 s e, summarizeGeneration (filterByDate g1 s e) sources)) ∧
    (∀ countries s e, updatePriceGraph rawP countries s e =
      Except.ok (filterByDate p1 s e, summarizePrices (filterByDate p1 s e) countries)) := by
  have hg : g1 = g2 := Except.ok.inj (hg1 ▸ hg2)
  have hp : p1 = p2 := Except.ok.inj (hp1 ▸ hp2)
  refine ⟨?_, ?_, ?_, ?_⟩
  · intro i
    rw [hg]
  · intro i
    rw [hp]
  · intro sources s e
    unfold updateGenerationGraph
    rw [hg1]
  · intro countries s e
    unfold updatePriceGraph
    rw [hp1]

/-- Witness for `c9_fresh_reload` on one-column sources. -/
theorem c9_fresh_reload_witness :
    updateGenerationGraph ⟨[1], [("G [MWh]", ["1,0"])]⟩ ["G"] 0 2 =
      Except.ok (filterByDate [Row.mk 1 [("G", 10)]] 0 2,
        summarizeGeneration (filterByDate [Row.mk 1 [("G", 10)]] 0 2) ["G"]) :=
  (c9_fresh_reload ⟨[1], [("G [MWh]", ["1,0"])]⟩ ⟨[1], [("P [EUR]", ["45,67"])]⟩
    [Row.mk 1 [("G", 10)]] [Row.mk 1 [("G", 10)]]
    [Row.mk 1 [("P", mkRat 4567 100)]] [Row.mk 1 [("P", mkRat 4567 100)]]
    (by decide) (by decide) (by decide) (by decide)).2.2.1 ["G"] 0 2

/-- C10 (confirmed): `summarizeGeneration` on a filtered table with zero
rows returns a total of 0.0 for every selected category and raises no
error — unlike the empty-range failure the spec mandates for price
aggregation, generation totals silently report zero. -/
theorem c10_empty_generation (cats : List String) :
    summarizeGeneration [] cats = cats.map (fun c => (c, (0 : ℚ))) := by
  simp [summarizeGeneration, colVals, pdSum]

end Dash
